import Mathlib

/-!
Shallow embedding of the `plane-hacks` expression pipeline
(lexer → parser → execution graph), translated from the Rust sources:

* `src/executor/exec/src/lexer.rs` — `lex`, `lex_multiline`
* `src/execution/src/parser.rs`    — `parse_expr`, `parse`
* `src/execution/src/execution.rs` — `Var`, `Dtype`, the operator nodes,
  `build_execution_graph`, `compute`, `subscribe`, `initialize`,
  `initialize_par_iter`

Modelling conventions:
* Rust `i64` is modelled as unbounded `Int` (no claim under scrutiny involves
  literals or arithmetic near the `i64` range, where `parse::<i64>` /
  wrap-around would differ).
* Rust `f64` is modelled as exact `Rat`.  The claims about floats concern the
  dtype-promotion table, result dtypes and vector lengths, none of which
  depend on IEEE rounding; `x as f64` on an `i64` becomes the exact cast
  `(x : Rat)`.
* `LexError { substr }` is modelled as its `substr : String`.
* mpsc channels: each `channel()` call is given a fresh `Nat` identifier by
  threading an allocation counter; the channel contents live in a
  `ChanState : Nat → Option Var` (a channel carries at most one value in this
  design, and `recv` consumes it).
* A Rust panic (`unreachable!`, `Option::unwrap` on `None`) is a
  distinguished `panic` outcome, kept separate from `Err(())`.
-/

namespace Exec

/-- `enum Term` from lexer.rs: leaf literal or named variable. -/
inductive Term
  | Var (name : String)
  | IntV (i : Int)
  | FloatV (f : Rat)
  | BoolV (b : Bool)
  deriving DecidableEq

/-- `enum Token` from lexer.rs: there is no `Sub` variant — `-` lexes to
`Neg`.  Consequently, in execution.rs (which opens `Token::*`) the `Sub =>`
arm of `BinaryOperator::new` is an identifier *binding* (a catch-all), not a
variant pattern; see `binaryOperatorTag`. -/
inductive Token
  | Term (t : Term)
  | Neg
  | Plus
  | LeftParen
  | RightParen
  | Sin
  | Cos
  | Mul
  | Lt
  | Le
  | Gt
  | Ge
  | Eq
  | Not
  | And
  | Or
  | Ne
  deriving DecidableEq

/-- Digit value of an ASCII digit character. -/
def charDigit (c : Char) : Nat := c.toNat - '0'.toNat

/-- Value of a run of ASCII digits (models `str::parse::<i64>` on the digit
run collected by the lexer; unbounded, see header note). -/
def natOfDigits (ds : List Char) : Nat :=
  ds.foldl (fun a c => a * 10 + charDigit c) 0

/-- Value of a numeric literal containing at most one `.`
(models `str::parse::<f64>`, exactly). -/
def ratOfNumeral (cs : List Char) : Rat :=
  let ip := cs.takeWhile (fun c => c ≠ '.')
  let fp := (cs.dropWhile (fun c => c ≠ '.')).drop 1
  mkRat (Int.ofNat (natOfDigits ip * 10 ^ fp.length + natOfDigits fp)) (10 ^ fp.length)

/-- The token built from a collected numeric literal: the presence of `.`
selects float-vs-int (lexer.rs lines 220–228). -/
def numToken (acc : List Char) (isF : Bool) : Token :=
  if isF then .Term (.FloatV (ratOfNumeral acc))
  else .Term (.IntV (Int.ofNat (natOfDigits acc)))

/-- The numeric-literal scan loop of lexer.rs (lines 195–219): greedily
consume digits and at most one `.`; a second `.` is an error.  Returns the
collected characters, the float flag, and the remaining input. -/
def scanNum (acc : List Char) (isF : Bool) : List Char → Except String (List Char × Bool × List Char)
  | [] => .ok (acc, isF, [])
  | c :: rest =>
    if c = '.' then
      if isF then .error "Failed; cannot have multiple `.` in numeric literal"
      else scanNum (acc ++ [c]) true rest
    else if c.isDigit then scanNum (acc ++ [c]) isF rest
    else .ok (acc, isF, c :: rest)

/-- The variable-name scan loop of lexer.rs (lines 266–279): a run of
lowercase letters after `:`.  Returns the name and the remaining input. -/
def scanVar : List Char → List Char × List Char
  | [] => ([], [])
  | c :: rest =>
    if 'a' ≤ c ∧ c ≤ 'z' then
      let p := scanVar rest
      (c :: p.1, p.2)
    else ([], c :: rest)

/-- One iteration of the `while let Some(c) = it.next()` loop of `lex`
(lexer.rs lines 134–291), given the consumed character `c` and the rest of
the input.  Returns the produced token (`none` for a skipped space) and the
remaining input.  `consume_if_matches` is "peek the literal, drop it on a
full match".  NOTE the `'c'` arm is translated exactly as written in the
source: it matches the full literal `"cos"` against the input *after* the
initial `'c'` has already been consumed (unlike the `'s'` arm, which matches
only the remainder `"in"`). -/
def lexStep (c : Char) (rest : List Char) : Except String (Option Token × List Char) :=
  match c with
  | '(' => .ok (some .LeftParen, rest)
  | ')' => .ok (some .RightParen, rest)
  | '+' => .ok (some .Plus, rest)
  | '-' => .ok (some .Neg, rest)
  | '*' => .ok (some .Mul, rest)
  | '<' =>
    match rest with
    | '=' :: r => .ok (some .Le, r)
    | _ => .ok (some .Lt, rest)
  | '>' =>
    match rest with
    | '=' :: r => .ok (some .Ge, r)
    | _ => .ok (some .Gt, rest)
  | '&' =>
    match rest with
    | '&' :: r => .ok (some .And, r)
    | _ => .error "Failed to parse `and`"
  | '|' =>
    match rest with
    | '|' :: r => .ok (some .Or, r)
    | _ => .error "Failed to parse `or`"
  | '!' =>
    match rest with
    | '=' :: r => .ok (some .Ne, r)
    | _ => .ok (some .Not, rest)
  | '=' =>
    match rest with
    | '=' :: r => .ok (some .Eq, r)
    | _ => .error "Failed to parse `eq`"
  | 't' =>
    if ['r', 'u', 'e'].isPrefixOf rest then .ok (some (.Term (.BoolV true)), rest.drop 3)
    else .error "Failed to parse `true`"
  | 'f' =>
    if ['a', 'l', 's', 'e'].isPrefixOf rest then .ok (some (.Term (.BoolV false)), rest.drop 4)
    else .error "Failed to parse `false`"
  | 's' =>
    if ['i', 'n'].isPrefixOf rest then .ok (some .Sin, rest.drop 2)
    else .error "Failed to parse `sin`"
  | 'c' =>
    if ['c', 'o', 's'].isPrefixOf rest then .ok (some .Cos, rest.drop 3)
    else .error "Failed to parse `cos`"
  | ':' =>
    .ok (some (.Term (.Var (String.mk (scanVar rest).1))), (scanVar rest).2)
  | ' ' => .ok (none, rest)
  | c =>
    if c.isDigit then
      match scanNum [c] false rest with
      | .error e => .error e
      | .ok (acc, isF, rest') => .ok (some (numToken acc isF), rest')
    else .error ("Unexpected character: " ++ c.toString)

theorem scanNum_length (cs : List Char) : ∀ acc isF acc' isF' rest',
    scanNum acc isF cs = .ok (acc', isF', rest') → rest'.length ≤ cs.length := by
  induction cs with
  | nil => intro acc isF acc' isF' rest' h; simp [scanNum] at h; simp [h]
  | cons c rest ih =>
    intro acc isF acc' isF' rest' h
    simp only [scanNum] at h
    split at h
    · split at h
      · exact absurd h (by simp)
      · exact le_trans (ih _ _ _ _ _ h) (Nat.le_succ _)
    · split at h
      · exact le_trans (ih _ _ _ _ _ h) (Nat.le_succ _)
      · simp only [Except.ok.injEq, Prod.mk.injEq] at h
        simp [← h.2.2]

theorem scanVar_length (cs : List Char) : (scanVar cs).2.length ≤ cs.length := by
  induction cs with
  | nil => simp [scanVar]
  | cons c rest ih =>
    simp only [scanVar]
    split
    · simpa using le_trans ih (Nat.le_succ _)
    · simp

theorem lexStep_length (c : Char) (rest : List Char) (t : Option Token)
    (rest' : List Char) (h : lexStep c rest = .ok (t, rest')) :
    rest'.length ≤ rest.length := by
  unfold lexStep at h
  split at h <;> (try split at h) <;> (try split at h) <;>
    first
    | (simp only [Except.ok.injEq, Prod.mk.injEq] at h
       rw [← h.2]
       all_goals
         first
         | exact le_refl _
         | exact scanVar_length rest
         | (rename_i heq
            exact scanNum_length _ _ _ _ _ _ heq)
         | (simp [List.length_drop] <;> omega))
    | exact (Except.noConfusion h)

/-- `lex` from lexer.rs (lines 130–294): the main token loop.  The `fuel`
argument is a structural-recursion device only: each iteration of the Rust
loop consumes at least one character (`lexStep_length`), so any fuel greater
than the input length gives the loop's exact behaviour
(`lexRun_fuel_irrelevant`), and `lex` passes `cs.length + 1`. -/
def lexRun (fuel : Nat) (cs : List Char) : Except String (List Token) :=
  match fuel, cs with
  | _, [] => .ok []
  | 0, _ => .error "OUT OF FUEL"
  | fuel + 1, c :: rest =>
    match lexStep c rest with
    | .error e => .error e
    | .ok (some tok, rest') =>
      match lexRun fuel rest' with
      | .error e => .error e
      | .ok toks => .ok (tok :: toks)
    | .ok (none, rest') => lexRun fuel rest'

theorem lexRun_fuel_irrelevant (fuel : Nat) : ∀ (fuel' : Nat) (cs : List Char),
    cs.length < fuel → cs.length < fuel' → lexRun fuel cs = lexRun fuel' cs := by
  induction fuel with
  | zero => intro fuel' cs h1 _; exact absurd h1 (Nat.not_lt_zero _)
  | succ fuel ih =>
    intro fuel' cs h1 h2
    match cs with
    | [] =>
      match fuel' with
      | 0 => rfl
      | fuel' + 1 => rfl
    | c :: rest =>
      match fuel' with
      | 0 => exact absurd h2 (Nat.not_lt_zero _)
      | fuel' + 1 =>
        simp only [lexRun]
        cases hstep : lexStep c rest with
        | error e => rfl
        | ok p =>
          have hlen := lexStep_length c rest p.1 p.2 (by rw [hstep])
          have hr : p.2.length < fuel := by
            simp only [List.length_cons] at h1; omega
          have hr' : p.2.length < fuel' := by
            simp only [List.length_cons] at h2; omega
          match p with
          | (some tok, rest') =>
            simp only
            rw [ih fuel' rest' hr hr']
          | (none, rest') =>
            simp only
            exact ih fuel' rest' hr hr'

/-- `lex(chars) -> Result<Vec<Token>, LexError>`; the error is its
`substr` field. -/
def lex (cs : List Char) : Except String (List Token) := lexRun (cs.length + 1) cs

/-- Split a character sequence at `'\n'`, keeping every (possibly empty)
field. -/
def splitNl : List Char → List (List Char)
  | [] => [[]]
  | c :: rest =>
    if c = '\n' then [] :: splitNl rest
    else
      match splitNl rest with
      | [] => [[c]]
      | l :: ls => (c :: l) :: ls

/-- Strip the `\r` of a `\r\n` line ending (the field was `\n`-terminated). -/
def stripCr (l : List Char) : List Char :=
  if l.getLast? = some '\r' then l.dropLast else l

/-- Turn the `\n`-split fields into lines: every field except the last was
`\n`-terminated, so a trailing `\r` in it belongs to a `\r\n` ending and is
stripped; the final field was not terminated — it is dropped when empty
(optional final line ending) and otherwise kept verbatim (a lone trailing
`\r` at end of input is not a line ending and stays). -/
def linesOfParts : List (List Char) → List String
  | [] => []
  | [l] => if l = [] then [] else [String.mk l]
  | l :: rest => String.mk (stripCr l) :: linesOfParts rest

/-- Rust `str::lines()`: split at `\n` or `\r\n`; the final line ending is
optional. -/
def strLines (s : String) : List String :=
  match s.data with
  | [] => []
  | cs => linesOfParts (splitNl cs)

example : strLines "a\nb" = ["a", "b"] := by rfl
example : strLines "a\r\nb" = ["a", "b"] := by rfl
example : strLines "a\nb\n" = ["a", "b"] := by rfl
example : strLines "a\r" = ["a\r"] := by rfl
example : strLines "\n" = [""] := by rfl
example : strLines "" = [] := by rfl

/-- Is a per-line lex result a success (`Result::is_ok`)? -/
def exceptIsOk (r : Except String (List Token)) : Bool :=
  match r with
  | .ok _ => true
  | .error _ => false

/-- The failure payload of a per-line lex result (the `LexError` substr). -/
def exceptErrPart (r : Except String (List Token)) : Option String :=
  match r with
  | .error e => some e
  | .ok _ => none

/-- The success payload of a per-line lex result. -/
def exceptOkPart (r : Except String (List Token)) : Option (List Token) :=
  match r with
  | .ok ts => some ts
  | .error _ => none

/-- The recombination step of `lex_multiline` (lexer.rs lines 110–127),
given the per-line results in original line order: `partition` the failures
from the successes; if there are no failures, return every line's tokens,
otherwise one error joining the failures' `substr`s with `"\n"`. -/
def multilineResult (rs : List (Except String (List Token))) : Except String (List (List Token)) :=
  if rs.filterMap exceptErrPart = [] then .ok (rs.filterMap exceptOkPart)
  else .error (String.intercalate "\n" (rs.filterMap exceptErrPart))

/-- `lex_multiline` from lexer.rs (lines 109–128): lex every line (the Rust
version does so concurrently over `par_lines()`, whose `partition` preserves
the original line order) and recombine. -/
def lexMultiline (program : String) : Except String (List (List Token)) :=
  multilineResult ((strLines program).map (fun l => lex l.data))

/-- `struct ParseError;` from parser.rs: a pure pass/fail signal, no payload. -/
inductive ParseError
  | mk
  deriving DecidableEq

/-- `struct ParseNode { dependencies: Vec<ParseNode>, token: Token }` from
parser.rs. -/
inductive ParseNode
  | mk (dependencies : List ParseNode) (token : Token)

def ParseNode.dependencies : ParseNode → List ParseNode
  | .mk d _ => d

def ParseNode.token : ParseNode → Token
  | .mk _ t => t

/-- `parse_term` from parser.rs (lines 21–26). -/
def parse_term (t : Term) : Except ParseError ParseNode :=
  .ok (.mk [] (.Term t))

/-- `parse_expr` from parser.rs (lines 28–76).  Grammar (right-recursive, no
precedence): `expr -> term (binop expr)? | unop expr | '(' expr ')'`.
Returns the node and the unconsumed remainder of the token slice. -/
def parse_expr : List Token → Except ParseError (ParseNode × List Token)
  | [] => .error .mk
  | node :: remaining =>
    match node with
    | .LeftParen =>
      match parse_expr remaining with
      | .error e => .error e
      | .ok (subexpr, rest) =>
        match rest with
        | .RightParen :: restrest => .ok (subexpr, restrest)
        | _ => .error .mk
    | .Term t =>
      match parse_term t with
      | .error e => .error e
      | .ok term =>
        match remaining with
        | [] => .ok (term, remaining)
        | binop_term :: rest =>
          match binop_term with
          | .RightParen => .ok (term, remaining)
          | .Neg | .Plus | .Mul | .Lt | .Le | .Gt | .Ge | .Eq | .And | .Or | .Ne =>
            match parse_expr rest with
            | .error e => .error e
            | .ok (rhs, residual) => .ok (.mk [term, rhs] binop_term, residual)
          | _ => .error .mk
    | .Neg | .Plus | .Sin | .Cos =>
      match parse_expr remaining with
      | .error e => .error e
      | .ok (subexpr, rest) => .ok (.mk [subexpr] node, rest)
    | _ => .error .mk

/-- `parse` from parser.rs (lines 79–87): a full parse additionally requires
the entire token sequence to be consumed. -/
def parse (tokens : List Token) : Except ParseError ParseNode :=
  match parse_expr tokens with
  | .error e => .error e
  | .ok (node, remaining) =>
    if remaining.isEmpty then .ok node else .error .mk

example : parse [.Term (.IntV 12)] = .ok (.mk [] (.Term (.IntV 12))) := by rfl
example : parse [.LeftParen, .Term (.IntV 12), .RightParen] = .ok (.mk [] (.Term (.IntV 12))) := by rfl
example : parse [.Term (.Var "a"), .Plus, .Term (.IntV 1)] =
    .ok (.mk [.mk [] (.Term (.Var "a")), .mk [] (.Term (.IntV 1))] .Plus) := by rfl
example : parse [.Neg, .Term (.IntV 1)] = .ok (.mk [.mk [] (.Term (.IntV 1))] .Neg) := by rfl
example : parse [.Term (.IntV 1), .Term (.IntV 2)] = .error .mk := by rfl
example : parse [.LeftParen, .Term (.IntV 1)] = .error .mk := by rfl

/-- `enum Var` from execution.rs: a runtime vectorized value. -/
inductive Var
  | IntV (l : List Int)
  | FloatV (l : List Rat)
  | BoolV (l : List Bool)
  deriving DecidableEq

/-- `enum Dtype` from execution.rs. -/
inductive Dtype
  | Int
  | Float
  | Bool
  deriving DecidableEq

/-- `Var::dtype` from execution.rs (lines 28–34). -/
def Var.dtype : Var → Dtype
  | .IntV _ => .Int
  | .FloatV _ => .Float
  | .BoolV _ => .Bool

/-- Length of the underlying vector of a `Var` (`Vec::len` of its payload). -/
def Var.vlen : Var → Nat
  | .IntV l => l.length
  | .FloatV l => l.length
  | .BoolV l => l.length

/-- The `Plus` elementwise closure of `BinaryOperator::new` (execution.rs
lines 229–249).  `par_iter().zip(...)` is an order-preserving zip truncating
to the shorter operand, i.e. `List.zipWith`; `*y as f64` is the exact cast
`(y : Rat)` (see header note). -/
def plusF (x y : Var) : Except String Var :=
  match x, y with
  | .IntV i1, .IntV i2 => .ok (.IntV (List.zipWith (fun a b => a + b) i1 i2))
  | .FloatV f1, .FloatV f2 => .ok (.FloatV (List.zipWith (fun a b => a + b) f1 f2))
  | .FloatV f1, .IntV i2 => .ok (.FloatV (List.zipWith (fun (a : Rat) (b : Int) => a + (b : Rat)) f1 i2))
  | .IntV i1, .FloatV f2 => .ok (.FloatV (List.zipWith (fun (a : Int) (b : Rat) => (a : Rat) + b) i1 f2))
  | _, _ => .error "Invalid types"

/-- The `Mul` elementwise closure of `BinaryOperator::new` (execution.rs
lines 250–270). -/
def mulF (x y : Var) : Except String Var :=
  match x, y with
  | .IntV i1, .IntV i2 => .ok (.IntV (List.zipWith (fun a b => a * b) i1 i2))
  | .FloatV f1, .FloatV f2 => .ok (.FloatV (List.zipWith (fun a b => a * b) f1 f2))
  | .FloatV f1, .IntV i2 => .ok (.FloatV (List.zipWith (fun (a : Rat) (b : Int) => a * (b : Rat)) f1 i2))
  | .IntV i1, .FloatV f2 => .ok (.FloatV (List.zipWith (fun (a : Int) (b : Rat) => (a : Rat) * b) i1 f2))
  | _, _ => .error "Invalid types"

/-- The `Sub` elementwise closure of `BinaryOperator::new` (execution.rs
lines 271–291). -/
def subF (x y : Var) : Except String Var :=
  match x, y with
  | .IntV i1, .IntV i2 => .ok (.IntV (List.zipWith (fun a b => a - b) i1 i2))
  | .FloatV f1, .FloatV f2 => .ok (.FloatV (List.zipWith (fun a b => a - b) f1 f2))
  | .FloatV f1, .IntV i2 => .ok (.FloatV (List.zipWith (fun (a : Rat) (b : Int) => a - (b : Rat)) f1 i2))
  | .IntV i1, .FloatV f2 => .ok (.FloatV (List.zipWith (fun (a : Int) (b : Rat) => (a : Rat) - b) i1 f2))
  | _, _ => .error "Invalid types"

/-- Tag naming which of the three implemented elementwise closures a
`BinaryOperator` holds (the boxed `Box<dyn Fn>` of execution.rs,
defunctionalized). -/
inductive BinTag
  | plusT
  | mulT
  | subT
  deriving DecidableEq

/-- Interpretation of a `BinTag` as its closure. -/
def applyTag : BinTag → Var → Var → Except String Var
  | .plusT => plusF
  | .mulT => mulF
  | .subT => subF

/-- The `f` selection of `BinaryOperator::new` (execution.rs lines 228–293):
`Plus` and `Mul` select their closures.  The following `Sub =>` arm is an
identifier binding, not a variant pattern (the `Token` enum has no `Sub`
variant), so it catches every other token and selects the subtraction
closure — in particular a binary `Neg` node builds with the subtraction
closure, which is how `a - b` is wired; the trailing
`_ => todo!(...)` arm is dead code and unrepresented here. -/
def binaryOperatorTag : Token → BinTag
  | .Plus => .plusT
  | .Mul => .mulT
  | _ => .subT

/-- `struct Constant` (execution.rs lines 160–164): outbound channel ids and
the held value. -/
structure ConstantOp where
  broadcasts_to : List Nat
  item : Var
  deriving DecidableEq

/-- `struct BinaryOperator` (execution.rs lines 166–171): outbound channel
ids, the two inbound channel ids, and the elementwise-closure tag. -/
structure BinOpNode where
  broadcasts_to : List Nat
  lhs : Nat
  rhs : Nat
  tag : BinTag
  deriving DecidableEq

/-- `enum OperatorEnum` from execution.rs (lines 88–91). -/
inductive OperatorEnum
  | Constant (c : ConstantOp)
  | BinOp (b : BinOpNode)
  deriving DecidableEq

/-- `struct ExecutionGraph { ops: Vec<OperatorEnum> }` (execution.rs
lines 109–111). -/
structure ExecutionGraph where
  ops : List OperatorEnum
  deriving DecidableEq

/-- `subscribe` (execution.rs lines 213–217 and 322–326): create a fresh
channel (`n` is the next unused channel id), push its sender onto the node's
outbound list, return the receiver.  Result: updated node, receiver id, next
unused id. -/
def OperatorEnum.subscribe : OperatorEnum → Nat → OperatorEnum × Nat × Nat
  | .Constant c, n =>
    (.Constant { c with broadcasts_to := c.broadcasts_to ++ [n] }, n, n + 1)
  | .BinOp b, n =>
    (.BinOp { b with broadcasts_to := b.broadcasts_to ++ [n] }, n, n + 1)

/-- Outcome of graph construction: `Ok(graph)` (with the next unused channel
id), `Err(())`, or a Rust panic. -/
inductive BuildOutcome
  | ok (g : ExecutionGraph) (next : Nat)
  | err
  | panic (msg : String)
  deriving DecidableEq

/-- `Constant::new` (execution.rs lines 180–201): a term node becomes a
single-node graph holding a one-element vector; a named-variable term falls
into the `_ => unreachable!()` arm, i.e. panics.  (The counter `n` is
unchanged: no channel is created.) -/
def constantNew (p : ParseNode) (n : Nat) : BuildOutcome :=
  match p.token with
  | .Term t =>
    match t with
    | .BoolV b => .ok ⟨[.Constant ⟨[], .BoolV [b]⟩]⟩ n
    | .IntV i => .ok ⟨[.Constant ⟨[], .IntV [i]⟩]⟩ n
    | .FloatV f => .ok ⟨[.Constant ⟨[], .FloatV [f]⟩]⟩ n
    | .Var _ => .panic "unreachable"
  | _ => .err

/-- The non-recursive tail of `BinaryOperator::new` (execution.rs lines
225–303), after the two child graphs `g1` and `g2` have been built:
subscribe to each child's root (`current_mut().unwrap().subscribe()`; an
empty child graph would be an `unwrap` panic), select the closure by token
(`binaryOperatorTag`), and assemble `[binop] ++ g1.ops ++ g2.ops`. -/
def binaryOperatorWire (tok : Token) (g1 g2 : ExecutionGraph) (n2 : Nat) : BuildOutcome :=
  match g1.ops with
  | [] => .panic "called `Option::unwrap()` on a `None` value"
  | op1 :: t1 =>
    match op1.subscribe n2 with
    | (op1', lhsCh, n3) =>
      match g2.ops with
      | [] => .panic "called `Option::unwrap()` on a `None` value"
      | op2 :: t2 =>
        match op2.subscribe n3 with
        | (op2', rhsCh, n4) =>
          .ok ⟨.BinOp ⟨[], lhsCh, rhsCh, binaryOperatorTag tok⟩ :: ((op1' :: t1) ++ (op2' :: t2))⟩ n4

/-- `ExecutionGraph::build_execution_graph` (execution.rs lines 114–120)
together with the recursive part of `BinaryOperator::new` (lines 221–224):
`Plus | Neg | Mul` with exactly two children dispatch to the binary
builder (which first builds the left then the right child, `?`-propagating
errors), `Term(_)` to `Constant::new`, anything else is `Err(())`. -/
def build_execution_graph : ParseNode → Nat → BuildOutcome
  | .mk deps tok, n =>
    match tok with
    | .Plus | .Neg | .Mul =>
      if deps.length = 2 then
        match deps with
        | [lhs, rhs] =>
          match build_execution_graph lhs n with
          | .err => .err
          | .panic m => .panic m
          | .ok g1 n1 =>
            match build_execution_graph rhs n1 with
            | .err => .err
            | .panic m => .panic m
            | .ok g2 n2 => binaryOperatorWire tok g1 g2 n2
        | _ => .err
      else
        .err
    | .Term t => constantNew (.mk deps (.Term t)) n
    | _ => .err

/-- The contents of every channel: channel id ↦ the (at most one) value sent
on it and not yet received.  Channels are single-use in this design. -/
def ChanState : Type := Nat → Option Var

/-- The all-empty channel state. -/
def emptyState : ChanState := fun _ => none

/-- Update one channel's contents. -/
def setChan (st : ChanState) (i : Nat) (v : Option Var) : ChanState :=
  fun j => if j = i then v else st j

/-- `for sender in &self.broadcasts_to { sender.send(item.clone()) }`: send
one (shared) value on every listed channel, in order. -/
def sendAll (targets : List Nat) (v : Var) (st : ChanState) : ChanState :=
  targets.foldl (fun s i => setChan s i (some v)) st

/-- Outcome of one `compute()` call: `Ok(())` with the updated channels,
`Err(msg)`, or a blocking `recv()` on a channel that holds no value yet
(the sender end is still alive in every reachable configuration, so Rust
would block — not error — there). -/
inductive ComputeOutcome
  | ok (st : ChanState)
  | err (msg : String)
  | blocked

/-- `Constant::compute` (execution.rs lines 203–211): send the held value to
every subscriber.  (`send` only fails if the receiver was dropped, which
never happens while the graph and the root receiver are alive, so the
`"Failed to Send"` branch is not reachable in the modelled configurations.) -/
def computeConstant (c : ConstantOp) (st : ChanState) : ComputeOutcome :=
  .ok (sendAll c.broadcasts_to c.item st)

/-- `BinaryOperator::compute` (execution.rs lines 309–320): blocking-receive
the left then the right input (receiving consumes the channel's value),
apply the closure, and on success send the result to every subscriber;
a closure error aborts without sending. -/
def computeBin (b : BinOpNode) (st : ChanState) : ComputeOutcome :=
  match st b.lhs with
  | none => .blocked
  | some x =>
    let st1 := setChan st b.lhs none
    match st1 b.rhs with
    | none => .blocked
    | some y =>
      let st2 := setChan st1 b.rhs none
      match applyTag b.tag x y with
      | .error e => .err e
      | .ok res => .ok (sendAll b.broadcasts_to res st2)

/-- `OperatorEnum::compute` (execution.rs lines 101–106). -/
def computeOp : OperatorEnum → ChanState → ComputeOutcome
  | .Constant c, st => computeConstant c st
  | .BinOp b, st => computeBin b st

/-- Compute the given operators in list order, threading the channel state;
the first failure (or block) stops the run (`?` propagation). -/
def runOps : List OperatorEnum → ChanState → ComputeOutcome
  | [], st => .ok st
  | op :: rest, st =>
    match computeOp op st with
    | .ok st' => runOps rest st'
    | .err e => .err e
    | .blocked => .blocked

/-- `ExecutionGraph::initialize` (execution.rs lines 131–136): compute every
node once, sequentially, in reverse construction order. -/
def ExecutionGraph.initialize (g : ExecutionGraph) (st : ChanState) : ComputeOutcome :=
  runOps g.ops.reverse st

/-- One completion order of `ExecutionGraph::initialize_par_iter`
(execution.rs lines 138–153): the rayon pool runs every node's `compute()`
concurrently, and `order` lists node indices in the order in which their
`compute()` calls complete.  Processing them in that order is exact for this
design because a node's only interaction with shared state is its atomic
recv/send protocol: a completed `compute()` observed exactly the sends of
previously completed ones.  An order in which some `compute()` reads a
channel not yet written is `blocked` — not a real completion order (the
real call would wait). -/
def runSchedule (g : ExecutionGraph) : List Nat → ChanState → ComputeOutcome
  | [], st => .ok st
  | i :: rest, st =>
    match g.ops[i]? with
    | none => .err "bad schedule index"
    | some op =>
      match computeOp op st with
      | .ok st' => runSchedule g rest st'
      | .err e => .err e
      | .blocked => .blocked

/-- `ExecutionGraph::subscribe` (execution.rs lines 155–157):
`current_mut().map(|v| v.subscribe())` — subscribe to the root (first)
operator if the list is non-empty. -/
def ExecutionGraph.subscribeRoot : ExecutionGraph → Nat → Option (ExecutionGraph × Nat × Nat)
  | ⟨[]⟩, _ => none
  | ⟨op :: t⟩, n =>
    match op.subscribe n with
    | (op', r, n') => some (⟨op' :: t⟩, r, n')

/-- The front half of the `end_to_end` tests of execution.rs (lines 359–381):
lex, parse, build, and subscribe to the root.  Returns the wired graph and
the root receiver's channel id. -/
def pipelineGraph (src : String) : Option (ExecutionGraph × Nat) :=
  match lex src.data with
  | .error _ => none
  | .ok toks =>
    match parse toks with
    | .error _ => none
    | .ok ast =>
      match build_execution_graph ast 0 with
      | .ok g n =>
        match g.subscribeRoot n with
        | some (g', h, _) => some (g', h)
        | none => none
      | .err => none
      | .panic _ => none

/-- The `end_to_end` test (execution.rs lines 359–369): sequential
`initialize`, then `handle.recv()` — the value left on the root channel. -/
def evalSeqStr (src : String) : Option Var :=
  match pipelineGraph src with
  | some (g, h) =>
    match ExecutionGraph.initialize g emptyState with
    | .ok st => st h
    | .err _ => none
    | .blocked => none
  | none => none

/-- Does this completion order leave `v` (and nothing else) on channel `h`?
A `blocked` run is not a realizable completion order of the concurrent
execution (the real blocked `recv` would simply wait), so it passes
vacuously; an `err` run counts as failure. -/
def orderDelivers (g : ExecutionGraph) (ord : List Nat) (h : Nat) (v : Var) : Bool :=
  match runSchedule g ord emptyState with
  | .ok st => decide (st h = some v)
  | .err _ => false
  | .blocked => true

/-- Does this completion order run every node to completion and deliver `v`
on channel `h`? -/
def orderCompletesWith (g : ExecutionGraph) (ord : List Nat) (h : Nat) (v : Var) : Bool :=
  match runSchedule g ord emptyState with
  | .ok st => decide (st h = some v)
  | .err _ => false
  | .blocked => false

/-- All ways of inserting `x` into a list (auxiliary for the permutation
enumerator below). -/
def insertEverywhere (x : α) : List α → List (List α)
  | [] => [[x]]
  | y :: ys => (x :: y :: ys) :: (insertEverywhere x ys).map (fun l => y :: l)

/-- All permutations of a list, by repeated insertion.  Used to enumerate
the possible completion orders of `initialize_par_iter`'s concurrent
`compute()` calls; `allOrders_complete` shows no order is missed. -/
def allOrders : List α → List (List α)
  | [] => [[]]
  | x :: xs => (allOrders xs).flatMap (insertEverywhere x)

theorem self_mem_insertEverywhere (x : α) (l : List α) : x :: l ∈ insertEverywhere x l := by
  cases l <;> simp [insertEverywhere]

theorem mem_insertEverywhere (x : α) (l1 l2 : List α) :
    (l1 ++ x :: l2) ∈ insertEverywhere x (l1 ++ l2) := by
  induction l1 with
  | nil => simpa using self_mem_insertEverywhere x l2
  | cons y l1 ih =>
    simp only [List.cons_append, insertEverywhere, List.mem_cons]
    exact Or.inr (List.mem_map.mpr ⟨l1 ++ x :: l2, ih, rfl⟩)

theorem allOrders_complete : ∀ (l ord : List α), ord.Perm l → ord ∈ allOrders l := by
  intro l
  induction l with
  | nil =>
    intro ord h
    rw [h.eq_nil]
    simp [allOrders]
  | cons x xs ih =>
    intro ord h
    have hx : x ∈ ord := h.symm.subset (List.mem_cons_self x xs)
    obtain ⟨l1, l2, rfl⟩ := List.append_of_mem hx
    have h' : List.Perm (x :: (l1 ++ l2)) (x :: xs) := List.perm_middle.symm.trans h
    have hmem := ih (l1 ++ l2) h'.cons_inv
    simp only [allOrders, List.mem_flatMap]
    exact ⟨l1 ++ l2, hmem, mem_insertEverywhere x l1 l2⟩

/-- The parse tree of `"5 * (10 + 3)"`. -/
def ast513 : ParseNode :=
  .mk [.mk [] (.Term (.IntV 5)),
       .mk [.mk [] (.Term (.IntV 10)), .mk [] (.Term (.IntV 3))] .Plus] .Mul

/-- The execution graph built from `ast513` (with the root subscribed at
channel 4): root `Mul` node first, then its dependencies. -/
def graph513 : ExecutionGraph :=
  ⟨[.BinOp ⟨[4], 2, 3, .mulT⟩,
    .Constant ⟨[2], .IntV [5]⟩,
    .BinOp ⟨[3], 0, 1, .plusT⟩,
    .Constant ⟨[0], .IntV [10]⟩,
    .Constant ⟨[1], .IntV [3]⟩]⟩

example : lex "5 * (10 + 3)".data =
    .ok [.Term (.IntV 5), .Mul, .LeftParen, .Term (.IntV 10), .Plus, .Term (.IntV 3), .RightParen] := by rfl

example : parse [.Term (.IntV 5), .Mul, .LeftParen, .Term (.IntV 10), .Plus, .Term (.IntV 3), .RightParen] =
    .ok ast513 := by rfl

example : build_execution_graph ast513 0 =
    .ok ⟨[.BinOp ⟨[], 2, 3, .mulT⟩,
          .Constant ⟨[2], .IntV [5]⟩,
          .BinOp ⟨[3], 0, 1, .plusT⟩,
          .Constant ⟨[0], .IntV [10]⟩,
          .Constant ⟨[1], .IntV [3]⟩]⟩ 4 := by
  simp [build_execution_graph, ast513, constantNew, binaryOperatorWire,
    binaryOperatorTag, OperatorEnum.subscribe, ParseNode.token]

example : pipelineGraph "5 * (10 + 3)" = some (graph513, 4) := by
  have hb : build_execution_graph ast513 0 =
      .ok ⟨[.BinOp ⟨[], 2, 3, .mulT⟩,
            .Constant ⟨[2], .IntV [5]⟩,
            .BinOp ⟨[3], 0, 1, .plusT⟩,
            .Constant ⟨[0], .IntV [10]⟩,
            .Constant ⟨[1], .IntV [3]⟩]⟩ 4 := by
    simp [build_execution_graph, ast513, constantNew, binaryOperatorWire,
      binaryOperatorTag, OperatorEnum.subscribe, ParseNode.token]
  have hlex : lex "5 * (10 + 3)".data =
      .ok [.Term (.IntV 5), .Mul, .LeftParen, .Term (.IntV 10), .Plus, .Term (.IntV 3), .RightParen] := by rfl
  have hparse : parse [.Term (.IntV 5), .Mul, .LeftParen, .Term (.IntV 10), .Plus, .Term (.IntV 3), .RightParen] =
      .ok ast513 := by rfl
  simp [pipelineGraph, hlex, hparse, hb, ExecutionGraph.subscribeRoot,
    OperatorEnum.subscribe, graph513]

/-- Read channel `h` of a completed run (`handle.recv()`); `none` if the run
did not complete or the channel is empty. -/
def outcomeRead (o : ComputeOutcome) (h : Nat) : Option Var :=
  match o with
  | .ok st => st h
  | .err _ => none
  | .blocked => none

example : outcomeRead ( ExecutionGraph.initialize graph513 emptyState) 4 = some (.IntV [65]) := by rfl
example : evalSeqStr "5 * (10 + 3)" = some (.IntV [65]) := by
  have hp : pipelineGraph "5 * (10 + 3)" = some (graph513, 4) := by
    have hb : build_execution_graph ast513 0 =
        .ok ⟨[.BinOp ⟨[], 2, 3, .mulT⟩,
              .Constant ⟨[2], .IntV [5]⟩,
              .BinOp ⟨[3], 0, 1, .plusT⟩,
              .Constant ⟨[0], .IntV [10]⟩,
              .Constant ⟨[1], .IntV [3]⟩]⟩ 4 := by
      simp [build_execution_graph, ast513, constantNew, binaryOperatorWire,
        binaryOperatorTag, OperatorEnum.subscribe, ParseNode.token]
    have hlex : lex "5 * (10 + 3)".data =
        .ok [.Term (.IntV 5), .Mul, .LeftParen, .Term (.IntV 10), .Plus, .Term (.IntV 3), .RightParen] := by rfl
    have hparse : parse [.Term (.IntV 5), .Mul, .LeftParen, .Term (.IntV 10), .Plus, .Term (.IntV 3), .RightParen] =
        .ok ast513 := by rfl
    simp [pipelineGraph, hlex, hparse, hb, ExecutionGraph.subscribeRoot,
      OperatorEnum.subscribe, graph513]
  simp only [evalSeqStr, hp]
  rfl
example : (allOrders (List.range graph513.ops.length)).all
    (fun ord => orderDelivers graph513 ord 4 (.IntV [65])) = true := by decide
example : orderCompletesWith graph513 [4, 3, 2, 1, 0] 4 (.IntV [65]) = true := by decide
example (ord : List Nat) (hp : ord.Perm (List.range graph513.ops.length)) :
    orderDelivers graph513 ord 4 (.IntV [65]) = true := by
  have hall : (allOrders (List.range graph513.ops.length)).all
      (fun ord => orderDelivers graph513 ord 4 (.IntV [65])) = true := by decide
  exact List.all_eq_true.mp hall ord (allOrders_complete _ _ hp)

example : lex "-98.5".data = .ok [.Neg, .Term (.FloatV (mkRat 197 2))] := by rfl
example : lex "98.23234.5".data = .error "Failed; cannot have multiple `.` in numeric literal" := by rfl
example : lex "94F".data = .error "Unexpected character: F" := by rfl
example : lex "true".data = .ok [.Term (.BoolV true)] := by rfl
example : lex "1 + :a".data = .ok [.Term (.IntV 1), .Plus, .Term (.Var "a")] := by rfl
example : lex "sin".data = .ok [.Sin] := by rfl
example : lex "<= < == != && ||".data = .ok [.Le, .Lt, .Eq, .Ne, .And, .Or] := by rfl

/-- Integer interpretation of a binary operator tag (`x + y`, `x * y`,
`x - y` on `i64` in the source). -/
def intOpOf : BinTag → Int → Int → Int
  | .plusT => fun a b => a + b
  | .mulT => fun a b => a * b
  | .subT => fun a b => a - b

/-- Float interpretation of a binary operator tag. -/
def ratOpOf : BinTag → Rat → Rat → Rat
  | .plusT => fun a b => a + b
  | .mulT => fun a b => a * b
  | .subT => fun a b => a - b

/-- Claim C2: for each implemented binary operator (plus, multiply,
subtract): two Int vectors give an Int vector (elementwise); two Float
vectors give a Float vector; an Int vector with a Float vector (either
order) gives a Float vector with the Int operand promoted elementwise; and
any pair in which either operand is a Bool vector gives the
"Invalid types" error — and `BinaryOperator::compute` then fails without
sending anything (it returns the error, producing no updated channel
state). -/
theorem claim_C2 (t : BinTag) :
    (∀ i1 i2 : List Int, applyTag t (.IntV i1) (.IntV i2) =
        .ok (.IntV (List.zipWith (intOpOf t) i1 i2)))
    ∧ (∀ f1 f2 : List Rat, applyTag t (.FloatV f1) (.FloatV f2) =
        .ok (.FloatV (List.zipWith (ratOpOf t) f1 f2)))
    ∧ (∀ (i1 : List Int) (f2 : List Rat), applyTag t (.IntV i1) (.FloatV f2) =
        .ok (.FloatV (List.zipWith (fun (a : Int) (b : Rat) => ratOpOf t (a : Rat) b) i1 f2)))
    ∧ (∀ (f1 : List Rat) (i2 : List Int), applyTag t (.FloatV f1) (.IntV i2) =
        .ok (.FloatV (List.zipWith (fun (a : Rat) (b : Int) => ratOpOf t a (b : Rat)) f1 i2)))
    ∧ (∀ x y : Var, x.dtype = .Bool ∨ y.dtype = .Bool →
        applyTag t x y = .error "Invalid types")
    ∧ (∀ (b : BinOpNode) (st : ChanState) (x y : Var),
        st b.lhs = some x → (setChan st b.lhs none) b.rhs = some y →
        b.tag = t → (x.dtype = .Bool ∨ y.dtype = .Bool) →
        computeBin b st = .err "Invalid types") := by
  have hbool : ∀ x y : Var, x.dtype = .Bool ∨ y.dtype = .Bool →
      applyTag t x y = .error "Invalid types" := by
    intro x y h
    cases t <;> cases x <;> cases y <;>
      first
      | rfl
      | simp [Var.dtype] at h
  refine ⟨?_, ?_, ?_, ?_, hbool, ?_⟩
  · intro i1 i2; cases t <;> rfl
  · intro f1 f2; cases t <;> rfl
  · intro i1 f2; cases t <;> rfl
  · intro f1 i2; cases t <;> rfl
  · intro b st x y hx hy htag hb
    have := hbool x y hb
    rw [← htag] at this
    simp only [computeBin, hx, hy, this]

/-- Witness for C2 at concrete inputs: plus on a Bool operand errors, and
plus on Int ⊕ Float promotes. -/
theorem claim_C2_witness :
    applyTag .plusT (.BoolV [true]) (.IntV [1]) = .error "Invalid types"
    ∧ applyTag .plusT (.IntV [1]) (.FloatV [mkRat 1 2]) =
        .ok (.FloatV (List.zipWith (fun (a : Int) (b : Rat) => ratOpOf .plusT (a : Rat) b) [1] [mkRat 1 2])) :=
  ⟨(claim_C2 .plusT).2.2.2.2.1 (.BoolV [true]) (.IntV [1]) (Or.inl rfl),
   (claim_C2 .plusT).2.2.1 [1] [mkRat 1 2]⟩

/-- Claim C3: whenever an implemented binary operator accepts a pair of
operand vectors, the result length is the minimum of the operand lengths. -/
theorem claim_C3 (t : BinTag) (x y v : Var) (h : applyTag t x y = .ok v) :
    v.vlen = min x.vlen y.vlen := by
  cases t <;> cases x <;> cases y <;>
    simp only [applyTag, plusF, mulF, subF] at h <;>
    first
    | exact (Except.noConfusion h)
    | (cases h; simp only [Var.vlen, List.length_zipWith])

/-- Witness for C3: a 3-element Int vector plus a 5-element Int vector gives
a 3-element result. -/
theorem claim_C3_witness :
    ∃ v, applyTag .plusT (.IntV [1, 2, 3]) (.IntV [10, 10, 10, 10, 10]) = .ok v
      ∧ v.vlen = min (Var.IntV [1, 2, 3]).vlen (Var.IntV [10, 10, 10, 10, 10]).vlen
      ∧ v.vlen = 3 :=
  ⟨.IntV (List.zipWith (fun a b => a + b) [1, 2, 3] [10, 10, 10, 10, 10]),
   rfl,
   claim_C3 .plusT (.IntV [1, 2, 3]) (.IntV [10, 10, 10, 10, 10]) _ rfl,
   rfl⟩

/-- Claim C5 (the code panics instead of returning `Err`): building a graph
from a named-variable term node hits `Constant::new`'s
`_ => unreachable!()` arm — a panic, not the `Err(())` the claim (and the
spec) describe. -/
theorem claim_C5 (name : String) (deps : List ParseNode) (n : Nat) :
    build_execution_graph (.mk deps (.Term (.Var name))) n = .panic "unreachable"
    ∧ build_execution_graph (.mk deps (.Term (.Var name))) n ≠ .err := by
  constructor
  · simp [build_execution_graph, constantNew, ParseNode.token]
  · simp [build_execution_graph, constantNew, ParseNode.token]

/-- Claim C6 (the code rejects `"cos"`): the lexer's `'c'` arm matches the
full literal `"cos"` against the input after the initial `'c'` is already
consumed, so `lex("cos")` fails with `Failed to parse \x60cos\x60` and only
`"ccos"` lexes to the `Cos` token — while the `'s'` arm correctly accepts
`"sin"`. -/
theorem claim_C6 :
    lex "cos".data = .error "Failed to parse `cos`"
    ∧ lex "ccos".data = .ok [.Cos]
    ∧ lex "sin".data = .ok [.Sin] :=
  ⟨rfl, rfl, rfl⟩

/-- Claim C9: the parser is right-associative with no precedence — for any
three terms, `a - b - c` (tokens: term, Neg, term, Neg, term) parses as
`Neg(a, Neg(b, c))` — and a parse whose `parse_expr` leaves unconsumed
tokens is a `ParseError`. -/
theorem claim_C9 :
    (∀ a b c : Term,
      parse [.Term a, .Neg, .Term b, .Neg, .Term c] =
        .ok (.mk [.mk [] (.Term a),
                  .mk [.mk [] (.Term b), .mk [] (.Term c)] .Neg] .Neg))
    ∧ (∀ (ts : List Token) (node : ParseNode) (rem : List Token),
        parse_expr ts = .ok (node, rem) → rem ≠ [] → parse ts = .error .mk) := by
  constructor
  · intro a b c
    rfl
  · intro ts node rem h hne
    rw [parse, h]
    cases rem with
    | nil => exact absurd rfl hne
    | cons hd tl => rfl

/-- Witness for C9 at concrete inputs: `1 - 2 - 3` parses right-associated,
and the token sequence `1 )` (where `parse_expr` stops before `)`) is
rejected by `parse`. -/
theorem claim_C9_witness :
    parse [.Term (.IntV 1), .Neg, .Term (.IntV 2), .Neg, .Term (.IntV 3)] =
      .ok (.mk [.mk [] (.Term (.IntV 1)),
                .mk [.mk [] (.Term (.IntV 2)), .mk [] (.Term (.IntV 3))] .Neg] .Neg)
    ∧ parse [.Term (.IntV 1), .RightParen] = .error .mk :=
  ⟨claim_C9.1 (.IntV 1) (.IntV 2) (.IntV 3),
   claim_C9.2 [.Term (.IntV 1), .RightParen] (.mk [] (.Term (.IntV 1))) [.RightParen]
     rfl (by simp)⟩

/-- Child counts a node's token can actually have in a tree produced by
`parse_expr`: terms have 0 children; `Sin`/`Cos` have exactly 1; `Neg` and
`Plus` have 1 (prefix-unary use, parser.rs line 64) or 2 (binary use,
parser.rs line 47); the remaining binary tokens have exactly 2; parens and
`Not` never appear as node tokens. -/
def tokenChildOk : Token → Nat → Bool
  | .Term _, n => n == 0
  | .Sin, n => n == 1
  | .Cos, n => n == 1
  | .Neg, n => n == 1 || n == 2
  | .Plus, n => n == 1 || n == 2
  | .Mul, n => n == 2
  | .Lt, n => n == 2
  | .Le, n => n == 2
  | .Gt, n => n == 2
  | .Ge, n => n == 2
  | .Eq, n => n == 2
  | .And, n => n == 2
  | .Or, n => n == 2
  | .Ne, n => n == 2
  | _, _ => false

mutual

/-- The (amended) arity invariant, recursively over a parse tree. -/
def arityOk : ParseNode → Bool
  | .mk deps tok => tokenChildOk tok deps.length && arityOkList deps

/-- `arityOk` on every node of a list. -/
def arityOkList : List ParseNode → Bool
  | [] => true
  | p :: ps => arityOk p && arityOkList ps

end

/-- The arity invariant exactly as claim C4 states it: 0 children for terms,
exactly 1 for the unary operators it lists (negate, sin, cos), exactly 2 for
binary operators; tokens the claim does not classify (parens, `Not`) are not
constrained. -/
def claimedTokenChildOk : Token → Nat → Bool
  | .Term _, n => n == 0
  | .Neg, n => n == 1
  | .Sin, n => n == 1
  | .Cos, n => n == 1
  | .LeftParen, _ => true
  | .RightParen, _ => true
  | .Not, _ => true
  | _, n => n == 2

/-- Counterexample to claim C4 as stated: a leading `Plus` is accepted by
the parser's unary branch (parser.rs line 64 reads `Neg | Plus | Sin | Cos`),
so `+ 5` parses to a node whose token is the binary operator `Plus` with
exactly one child — the claim requires exactly two. -/
theorem claim_C4_counterexample :
    parse [.Plus, .Term (.IntV 5)] = .ok (.mk [.mk [] (.Term (.IntV 5))] .Plus)
    ∧ (ParseNode.mk [.mk [] (.Term (.IntV 5))] .Plus).dependencies.length = 1
    ∧ claimedTokenChildOk .Plus
        (ParseNode.mk [.mk [] (.Term (.IntV 5))] .Plus).dependencies.length = false :=
  ⟨rfl, rfl, rfl⟩

theorem parse_expr_arity (fuel : Nat) : ∀ (ts : List Token), ts.length ≤ fuel →
    ∀ node rem, parse_expr ts = .ok (node, rem) → arityOk node = true := by
  induction fuel with
  | zero =>
    intro ts hlen node rem h
    have hts : ts = [] := List.eq_nil_of_length_eq_zero (Nat.le_zero.mp hlen)
    subst hts
    simp [parse_expr] at h
  | succ n ih =>
    intro ts hlen node rem h
    cases ts with
    | nil => simp [parse_expr] at h
    | cons tok remaining =>
      have hrem : remaining.length ≤ n := by
        simp only [List.length_cons] at hlen
        omega
      cases tok
      case LeftParen =>
        simp only [parse_expr] at h
        split at h
        · simp at h
        · rename_i sub rest heq
          split at h
          · rename_i restrest
            cases h
            exact ih remaining hrem _ _ heq
          · simp at h
      case Term t =>
        cases remaining with
        | nil =>
          simp only [parse_expr, parse_term] at h
          cases h
          simp [arityOk, arityOkList, tokenChildOk]
        | cons binop rest =>
          have hrest : rest.length ≤ n := by
            simp only [List.length_cons] at hrem
            omega
          simp only [parse_expr, parse_term] at h
          split at h
          all_goals
            first
            | (obtain ⟨rfl, rfl⟩ := h
               simp [arityOk, arityOkList, tokenChildOk])
            | (split at h
               · simp at h
               · rename_i rhs residual heq
                 simp only [Except.ok.injEq, Prod.mk.injEq] at h
                 obtain ⟨rfl, rfl⟩ := h
                 have hok := ih rest hrest _ _ heq
                 simp [arityOk, arityOkList, tokenChildOk, hok])
            | simp at h
      all_goals
        first
        | (simp only [parse_expr] at h
           split at h
           · simp at h
           · rename_i sub rest heq
             simp only [Except.ok.injEq, Prod.mk.injEq] at h
             obtain ⟨rfl, rfl⟩ := h
             have hok := ih remaining hrem _ _ heq
             simp [arityOk, arityOkList, tokenChildOk, hok])
        | simp [parse_expr] at h

/-- Claim C4, amended: every tree returned by a successful parse satisfies
the reachable arity invariant — terms have 0 children, `Sin`/`Cos` exactly
1, `Neg`/`Plus` 1 or 2 (they double as prefix-unary operators), the other
binary operators exactly 2, and no other token appears as a node token;
shapes outside this are rejected. -/
theorem claim_C4 (ts : List Token) (node : ParseNode) (h : parse ts = .ok node) :
    arityOk node = true := by
  rw [parse] at h
  split at h
  · simp at h
  · rename_i node' rem heq
    split at h
    · cases h
      exact parse_expr_arity ts.length ts (le_refl _) _ _ heq
    · simp at h

/-- Witness for C4 at a concrete input: `1 - 2` parses and satisfies the
invariant. -/
theorem claim_C4_witness :
    arityOk (.mk [.mk [] (.Term (.IntV 1)), .mk [] (.Term (.IntV 2))] .Neg) = true :=
  claim_C4 [.Term (.IntV 1), .Neg, .Term (.IntV 2)]
    (.mk [.mk [] (.Term (.IntV 1)), .mk [] (.Term (.IntV 2))] .Neg) rfl

theorem sendAll_not_mem (targets : List Nat) (v : Var) : ∀ (st : ChanState) (i : Nat),
    i ∉ targets → sendAll targets v st i = st i := by
  induction targets with
  | nil => intro st i _; rfl
  | cons j rest ih =>
    intro st i hi
    simp only [List.mem_cons, not_or] at hi
    simp only [sendAll, List.foldl_cons]
    rw [show (List.foldl (fun s k => setChan s k (some v)) (setChan st j (some v)) rest)
          = sendAll rest v (setChan st j (some v)) from rfl]
    rw [ih (setChan st j (some v)) i hi.2]
    simp [setChan, hi.1]

theorem sendAll_mem (targets : List Nat) (v : Var) : ∀ (st : ChanState) (i : Nat),
    i ∈ targets → sendAll targets v st i = some v := by
  induction targets with
  | nil => intro st i hi; simp at hi
  | cons j rest ih =>
    intro st i hi
    simp only [sendAll, List.foldl_cons]
    rw [show (List.foldl (fun s k => setChan s k (some v)) (setChan st j (some v)) rest)
          = sendAll rest v (setChan st j (some v)) from rfl]
    by_cases hr : i ∈ rest
    · exact ih _ i hr
    · have hij : i = j := by
        rcases List.mem_cons.mp hi with h1 | h1
        · exact h1
        · exact absurd h1 hr
      rw [sendAll_not_mem rest v _ i hr]
      simp [setChan, hij]

/-- Three `subscribe` calls on one operator node, before any `compute`:
returns the trebly-subscribed node and the three receiver channel ids. -/
def subscribeThrice (op : OperatorEnum) (n : Nat) : OperatorEnum × Nat × Nat × Nat :=
  match op.subscribe n with
  | (op1, r1, n1) =>
    match op1.subscribe n1 with
    | (op2, r2, n2) =>
      match op2.subscribe n2 with
      | (op3, r3, _) => (op3, r1, r2, r3)

/-- Claim C7: if an operator node is subscribed to two (even three) times
before its `compute()` runs, and `compute()` succeeds, then every one of the
receivers' channels holds exactly the same single value (one-shot channels
hold at most one value in this design, so `some v` is "exactly one
delivery"). -/
theorem claim_C7 (op : OperatorEnum) (n : Nat) (st st' : ChanState)
    (h : computeOp (subscribeThrice op n).1 st = .ok st') :
    ∃ v, st' (subscribeThrice op n).2.1 = some v
       ∧ st' (subscribeThrice op n).2.2.1 = some v
       ∧ st' (subscribeThrice op n).2.2.2 = some v := by
  cases op with
  | Constant c =>
    revert h
    simp only [subscribeThrice, OperatorEnum.subscribe, computeOp, computeConstant]
    intro h
    cases h
    exact ⟨c.item,
      sendAll_mem _ _ _ _ (by simp),
      sendAll_mem _ _ _ _ (by simp),
      sendAll_mem _ _ _ _ (by simp)⟩
  | BinOp b =>
    revert h
    simp only [subscribeThrice, OperatorEnum.subscribe, computeOp, computeBin]
    intro h
    split at h
    · simp at h
    · split at h
      · simp at h
      · split at h
        · simp at h
        · cases h
          rename_i res heq
          exact ⟨res,
            sendAll_mem _ _ _ _ (by simp),
            sendAll_mem _ _ _ _ (by simp),
            sendAll_mem _ _ _ _ (by simp)⟩

/-- Witness for C7: a constant node `[7]` subscribed three times (channels
0, 1, 2) delivers the same value to all three receivers. -/
theorem claim_C7_witness :
    ∃ v, sendAll ([] ++ [0] ++ [1] ++ [2]) (Var.IntV [7]) emptyState 0 = some v
       ∧ sendAll ([] ++ [0] ++ [1] ++ [2]) (Var.IntV [7]) emptyState 1 = some v
       ∧ sendAll ([] ++ [0] ++ [1] ++ [2]) (Var.IntV [7]) emptyState 2 = some v :=
  claim_C7 (.Constant ⟨[], .IntV [7]⟩) 0 emptyState _ rfl

/-- Does the first operator of the graph match the root token it was built
from?  `Term` literals become `Constant` nodes holding the one-element
vector; `Plus`/`Mul` become `BinaryOperator` nodes holding the matching
elementwise closure; a binary `Neg` node builds a `BinaryOperator` holding
the subtraction closure (the catch-all `Sub =>` binding in
`BinaryOperator::new`).  (No other token can head a successfully built
graph: variable terms hit the `unreachable!` panic, everything else is
`Err(())`.) -/
def rootBuiltFrom (t : Token) (g : ExecutionGraph) : Prop :=
  match t, g.ops with
  | .Term (.IntV i), .Constant c :: _ => c.item = .IntV [i]
  | .Term (.FloatV f), .Constant c :: _ => c.item = .FloatV [f]
  | .Term (.BoolV b), .Constant c :: _ => c.item = .BoolV [b]
  | .Plus, .BinOp b :: _ => b.tag = .plusT
  | .Mul, .BinOp b :: _ => b.tag = .mulT
  | .Neg, .BinOp b :: _ => b.tag = .subT
  | _, _ => False

/-- Claim C10: every successfully built execution graph has a non-empty
operator list whose first element is the operator built for the root token,
and `ExecutionGraph::subscribe` on it always returns `Some` — its `None`
branch is unreachable for built graphs. -/
theorem claim_C10 (p : ParseNode) (n : Nat) (g : ExecutionGraph) (m : Nat)
    (h : build_execution_graph p n = .ok g m) :
    g.ops ≠ [] ∧ (∀ k, (g.subscribeRoot k).isSome = true) ∧ rootBuiltFrom p.token g := by
  obtain ⟨deps, tok⟩ := p
  unfold build_execution_graph at h
  split at h
  all_goals (repeat' split at h)
  all_goals (try simp at h)
  all_goals
    simp only [constantNew, binaryOperatorWire, ParseNode.token] at h
  all_goals (repeat' split at h)
  all_goals (try simp at h)
  all_goals
    obtain ⟨h1, h2⟩ := h
  all_goals subst h1
  all_goals
    refine ⟨by simp, fun k => by simp [ExecutionGraph.subscribeRoot, OperatorEnum.subscribe], ?_⟩
  all_goals
    simp_all [rootBuiltFrom, ParseNode.token, binaryOperatorTag]

/-- Witness for C10: the graph built from the literal `5`. -/
theorem claim_C10_witness :
    (⟨[.Constant ⟨[], .IntV [5]⟩]⟩ : ExecutionGraph).ops ≠ []
    ∧ (∀ k, ((⟨[.Constant ⟨[], .IntV [5]⟩]⟩ : ExecutionGraph).subscribeRoot k).isSome = true)
    ∧ rootBuiltFrom (.Term (.IntV 5)) ⟨[.Constant ⟨[], .IntV [5]⟩]⟩ :=
  claim_C10 (.mk [] (.Term (.IntV 5))) 0 ⟨[.Constant ⟨[], .IntV [5]⟩]⟩ 0
    (by simp [build_execution_graph, constantNew, ParseNode.token])

theorem filterMap_err_nil (rs : List (Except String (List Token))) :
    rs.filterMap exceptErrPart = [] ↔ ∀ r ∈ rs, exceptIsOk r = true := by
  induction rs with
  | nil => simp
  | cons r rest ih =>
    cases r with
    | ok ts => simp [List.filterMap_cons, exceptErrPart, exceptIsOk, ih]
    | error e => simp [List.filterMap_cons, exceptErrPart, exceptIsOk]

theorem all_ok_decomp (rs : List (Except String (List Token)))
    (h : ∀ r ∈ rs, exceptIsOk r = true) :
    rs = (rs.filterMap exceptOkPart).map Except.ok := by
  induction rs with
  | nil => simp
  | cons r rest ih =>
    cases r with
    | ok ts =>
      have hrest := ih (fun r hr => h r (List.mem_cons_of_mem _ hr))
      simp only [List.filterMap_cons, exceptOkPart, List.map_cons]
      exact congrArg _ hrest
    | error e =>
      have := h (.error e) (List.mem_cons_self _ _)
      simp [exceptIsOk] at this

/-- Claim C8: `lex_multiline` succeeds iff every line lexes, in which case
it returns exactly one token sequence per line in original line order
(`line-results = map ok returned-list`); otherwise it fails with a single
error whose message is the newline-join of the failing lines' fragments —
never a partial success list. -/
theorem claim_C8 (p : String) :
    ((∃ ls, lexMultiline p = .ok ls) ↔
      ∀ l ∈ strLines p, exceptIsOk (lex l.data) = true)
    ∧ (∀ ls, lexMultiline p = .ok ls →
        (strLines p).map (fun l => lex l.data) = ls.map Except.ok)
    ∧ (∀ e, lexMultiline p = .error e →
        (∃ l ∈ strLines p, exceptIsOk (lex l.data) = false)
        ∧ e = String.intercalate "\n"
            (((strLines p).map (fun l => lex l.data)).filterMap exceptErrPart)) := by
  by_cases hif : ((strLines p).map (fun l => lex l.data)).filterMap exceptErrPart = []
  · have hall : ∀ r ∈ (strLines p).map (fun l => lex l.data), exceptIsOk r = true :=
      (filterMap_err_nil _).mp hif
    have hok : lexMultiline p =
        .ok (((strLines p).map (fun l => lex l.data)).filterMap exceptOkPart) := by
      rw [lexMultiline, multilineResult, if_pos hif]
    refine ⟨⟨fun _ l hl => hall _ (List.mem_map_of_mem _ hl), fun _ => ⟨_, hok⟩⟩, ?_, ?_⟩
    · intro ls hls
      rw [hok] at hls
      cases hls
      exact all_ok_decomp _ hall
    · intro e he
      rw [hok] at he
      exact Except.noConfusion he
  · have herr : lexMultiline p =
        .error (String.intercalate "\n"
          (((strLines p).map (fun l => lex l.data)).filterMap exceptErrPart)) := by
      rw [lexMultiline, multilineResult, if_neg hif]
    refine ⟨⟨?_, ?_⟩, ?_, ?_⟩
    · rintro ⟨ls, hls⟩
      rw [herr] at hls
      exact Except.noConfusion hls
    · intro hall
      exact absurd ((filterMap_err_nil _).mpr
        (fun r hr => by
          obtain ⟨l, hl, rfl⟩ := List.mem_map.mp hr
          exact hall l hl)) hif
    · intro ls hls
      rw [herr] at hls
      exact Except.noConfusion hls
    · intro e he
      rw [herr] at he
      have hee : String.intercalate "\n"
          (((strLines p).map (fun l => lex l.data)).filterMap exceptErrPart) = e :=
        congrArg (fun r => match r with | Except.error e => e | _ => "") he
      refine ⟨?_, hee.symm⟩
      by_contra hno
      push_neg at hno
      refine hif ((filterMap_err_nil _).mpr ?_)
      intro r hr
      obtain ⟨l, hl, rfl⟩ := List.mem_map.mp hr
      have := hno l hl
      cases hb : exceptIsOk (lex l.data) with
      | true => rfl
      | false => exact absurd hb this

/-- Witness for C8: a two-line program, one good line and one with an
invalid character, fails as a whole with the invalid line's fragment as the
message, and no partial success is returned. -/
theorem claim_C8_witness :
    (∃ l ∈ strLines "5 + 3\n9 @ 4", exceptIsOk (lex l.data) = false)
    ∧ "Unexpected character: @" = String.intercalate "\n"
        (((strLines "5 + 3\n9 @ 4").map (fun l => lex l.data)).filterMap exceptErrPart) :=
  (claim_C8 "5 + 3\n9 @ 4").2.2 "Unexpected character: @" rfl

/-- Claim C1: for the one-line program `"5 * (10 + 3)"`, lexing, parsing,
building the execution graph and subscribing to the root yields `graph513`
with root channel 4, and then (i) sequential `initialize` delivers the
integer vector `[65]` to the subscriber, and (ii) in the data-parallel mode
every completion order of the concurrent `compute()` calls that runs to
completion delivers the same `[65]` (and the dependency order, e.g. reverse
construction order, does run to completion) — the two scheduling modes are
observably equivalent on this deterministic pure computation. -/
theorem claim_C1 :
    evalSeqStr "5 * (10 + 3)" = some (.IntV [65])
    ∧ pipelineGraph "5 * (10 + 3)" = some (graph513, 4)
    ∧ (∀ ord : List Nat, ord.Perm (List.range graph513.ops.length) →
        orderDelivers graph513 ord 4 (.IntV [65]) = true)
    ∧ orderCompletesWith graph513 [4, 3, 2, 1, 0] 4 (.IntV [65]) = true := by
  have hb : build_execution_graph ast513 0 =
      .ok ⟨[.BinOp ⟨[], 2, 3, .mulT⟩,
            .Constant ⟨[2], .IntV [5]⟩,
            .BinOp ⟨[3], 0, 1, .plusT⟩,
            .Constant ⟨[0], .IntV [10]⟩,
            .Constant ⟨[1], .IntV [3]⟩]⟩ 4 := by
    simp [build_execution_graph, ast513, constantNew, binaryOperatorWire,
      binaryOperatorTag, OperatorEnum.subscribe, ParseNode.token]
  have hlex : lex "5 * (10 + 3)".data =
      .ok [.Term (.IntV 5), .Mul, .LeftParen, .Term (.IntV 10), .Plus, .Term (.IntV 3), .RightParen] := by rfl
  have hparse : parse [.Term (.IntV 5), .Mul, .LeftParen, .Term (.IntV 10), .Plus, .Term (.IntV 3), .RightParen] =
      .ok ast513 := by rfl
  have hp : pipelineGraph "5 * (10 + 3)" = some (graph513, 4) := by
    simp [pipelineGraph, hlex, hparse, hb, ExecutionGraph.subscribeRoot,
      OperatorEnum.subscribe, graph513]
  refine ⟨?_, hp, ?_, by decide⟩
  · simp only [evalSeqStr, hp]
    rfl
  · intro ord hperm
    have hall : (allOrders (List.range graph513.ops.length)).all
        (fun ord => orderDelivers graph513 ord 4 (.IntV [65])) = true := by decide
    exact List.all_eq_true.mp hall ord (allOrders_complete _ _ hperm)

/-- Witness for C1: the reverse construction order (the order `initialize`
uses, and a realizable completion order of the parallel mode) delivers
`[65]`. -/
theorem claim_C1_witness :
    orderDelivers graph513 ((List.range graph513.ops.length).reverse) 4 (.IntV [65]) = true :=
  claim_C1.2.2.1 ((List.range graph513.ops.length).reverse) (List.reverse_perm _)

end Exec
